import Mathlib

/-!
Verification of the constructor-signature merging code generator
(`dynamicforms_dev/management/commands/generate_fields.py`, `Command.handle`).

The generator walks, for each target field class, the list
`param_classes = list(enumerate(field.__mro__ up to fields.Field)) + [(0, UUIDMixIn)]`,
merges the constructor parameters of the visited classes into one
de-duplicated parameter list, renders each parameter (name, annotation,
default) to source text, wraps the joined parameter text, and emits a class
definition per field into one output file.

This file is a shallow embedding of that code.  Python's introspected
values are modelled by `PyVal`; parameter kinds by `PKind`; a class's own
constructor signature by `ClassDesc`; a target field by `FieldDesc`
(its truncated `__mro__` is given as data, since the host hierarchy is an
external collaborator).  Python standard-library string operations used by
the source (`str.replace`, `textwrap.wrap`, `textwrap.indent`/`lstrip`,
`textwrap.dedent`) are modelled on `List Char` for the value range the
generator feeds them (single-space separated text, no tabs, no hyphens),
each with a comment stating the modelled behaviour.
-/

/-- Parameter kinds of `inspect.Parameter.kind`. -/
inductive PKind where
  | positionalOnly
  | positionalOrKeyword
  | varPositional
  | keywordOnly
  | varKeyword
  deriving DecidableEq, Repr

/-- A single quote character, used by Python `repr` of strings. -/
def squo : String := String.singleton (Char.ofNat 39)

/-- Python values as far as the generator distinguishes them: the primitive
literals it recognizes (`str`/`int`/`float`/`bool`/`None`), the sentinel
`rest_framework.fields.empty`, the class object `uuid.UUID` (used as an
annotation), and everything else (`other`, carrying its `str()` display text
for diagnostic messages).  A `pfloat` carries its Python `repr` text, since
float formatting itself is outside the claims. -/
inductive PyVal where
  | pstr (s : String)
  | pint (n : Int)
  | pfloat (r : String)
  | pbool (b : Bool)
  | pnone
  | sentinelEmpty
  | uuidType
  | other (r : String)
  deriving DecidableEq, Repr

/-- `repr(v)` for the values accepted by
`isinstance(v, (str, int, float, bool)) or v is None` (source lines 78, 89).
Python `repr` of a string uses single quotes; the embedding assumes the
string needs no escaping. -/
def primRepr : PyVal → Option String
  | PyVal.pstr s => some (squo ++ s ++ squo)
  | PyVal.pint n => some (toString n)
  | PyVal.pfloat r => some r
  | PyVal.pbool b => some (if b then "True" else "False")
  | PyVal.pnone => some "None"
  | _ => none

/-- Encoding of a parameter annotation (source lines 77-86): primitives by
`repr`, the class `uuid.UUID` by its `__name__` (`"UUID"`), everything else
unsupported (`none`). -/
def annEncode (v : PyVal) : Option String :=
  match primRepr v with
  | some t => some t
  | none => if v = PyVal.uuidType then some "UUID" else none

/-- Encoding of a parameter default (source lines 88-94): primitives by
`repr`; `rest_framework.fields.empty` by
`'.'.join((p_def.__module__.split('.')[-1], p_def.__name__))`, which is the
text `"fields.empty"`; everything else unsupported (`none`). -/
def defEncode (v : PyVal) : Option String :=
  match primRepr v with
  | some t => some t
  | none => if v = PyVal.sentinelEmpty then some "fields.empty" else none

/-- `str(v)`, as interpolated in the f-string diagnostic messages.
`str` of a class object is `<class 'module.Name'>`. -/
def pyStr : PyVal → String
  | PyVal.pstr s => s
  | PyVal.pint n => toString n
  | PyVal.pfloat r => r
  | PyVal.pbool b => if b then "True" else "False"
  | PyVal.pnone => "None"
  | PyVal.sentinelEmpty => "<class " ++ squo ++ "rest_framework.fields.empty" ++ squo ++ ">"
  | PyVal.uuidType => "<class " ++ squo ++ "uuid.UUID" ++ squo ++ ">"
  | PyVal.other r => r

/-- One constructor parameter, as captured by
`inspect.signature(cls.__init__).parameters`.  `ann`/`dflt` are `none` when
the parameter has no annotation / no default (`inspect._empty`). -/
structure Parm where
  name : String
  kind : PKind
  ann : Option PyVal
  dflt : Option PyVal
  deriving DecidableEq, Repr

/-- The diagnostics the generator prints for one parameter while rendering
it (source lines 85-86 and 94): one line when the annotation is of unknown
type, one line when the default is of unknown type.  These are emitted for
every parameter that reaches the rendering stage, including parameters that
are afterwards dropped by name de-duplication (the prints at lines 85 and 94
run before the check at line 96). -/
def parmWarnings (p : Parm) : List String :=
  (match p.ann with
   | none => []
   | some v =>
     if (annEncode v).isSome then []
     else ["Error: parameter " ++ p.name ++ " annotation is of unknown type " ++ pyStr v ++ "."])
  ++
  (match p.dflt with
   | none => []
   | some v =>
     if (defEncode v).isSome then []
     else ["Error: parameter " ++ p.name ++ " default is of unknown type " ++ pyStr v ++ "."])

/-- The rendered parameter text `parm_str` (source lines 62, 74-94): the
name, then `": " ++ encoded` when an annotation is present and supported,
then `"=" ++ encoded` when a default is present and supported.  When the
annotation or default is unsupported, nothing is appended for it (the code
only prints the error message). -/
def renderParm (p : Parm) : String :=
  p.name
  ++ (match p.ann with
      | none => ""
      | some v => match annEncode v with
        | some t => ": " ++ t
        | none => "")
  ++ (match p.dflt with
      | none => ""
      | some v => match defEncode v with
        | some t => "=" ++ t
        | none => "")

/-- A visited class: its name and the ordered parameters of its own
`__init__` as reported by `inspect.signature` (first entry is normally the
bound parameter `self`).  A class with no declared constructor contributes
whatever `inspect.signature(cls.__init__)` reports (the inherited one); the
claims treat the per-class parameter list as given data. -/
structure ClassDesc where
  name : String
  params : List Parm
  deriving DecidableEq, Repr

/-- A target field class: its name, its truncated `__mro__` (the target
first, up to and including `fields.Field`, in resolution order — source
lines 42-45), and whether it lives in the `fields` module (source line 113,
`field_class in fields.__dict__`). -/
structure FieldDesc where
  name : String
  mro : List ClassDesc
  fromFieldsModule : Bool
  deriving DecidableEq, Repr

/-- State of the inner per-class parameter loop (source lines 55-98):
the accepted parameters so far across all classes (`field_params`, kept here
in structured form; the emitted strings are `accepted.map renderParm`), the
diagnostics printed so far, and this class's `had_kwds` flag. -/
structure PState where
  accepted : List Parm
  warnings : List String
  hadKwds : Bool
  deriving Repr

/-- One step of the parameter loop (source lines 56-98), for target class
name `fc` and the visited class's depth `depth`:
* line 58: for target `BooleanField`, the parameter `allow_null` is skipped;
* lines 62-66: a parameter named `self`, or of var-positional or
  var-keyword kind, is skipped, recording `had_kwds` for var-keyword;
* lines 67-72: at depth > 0, once any parameter is accepted, a
  positional-only parameter, or a positional-or-keyword parameter with no
  default, is skipped;
* lines 74-94: the parameter is rendered, printing a diagnostic for an
  unsupported annotation or default;
* lines 96-98: the parameter is appended unless its name was already
  accepted. -/
def stepParm (fc : String) (depth : Nat) (st : PState) (p : Parm) : PState :=
  if fc = "BooleanField" ∧ p.name = "allow_null" then st
  else if p.name = "self" ∨ p.kind = PKind.varKeyword ∨ p.kind = PKind.varPositional then
    { st with hadKwds := st.hadKwds || (p.kind == PKind.varKeyword) }
  else if depth ≠ 0 ∧ st.accepted ≠ [] ∧
      (p.kind = PKind.positionalOnly ∨
        (p.kind = PKind.positionalOrKeyword ∧ p.dflt = none)) then st
  else if p.name ∈ st.accepted.map Parm.name then
    { st with warnings := st.warnings ++ parmWarnings p }
  else
    { st with warnings := st.warnings ++ parmWarnings p, accepted := st.accepted ++ [p] }

/-- State of the outer class loop: accepted parameters, diagnostics, and
`skip_depth` (source lines 48-52, 100-101). -/
structure MState where
  accepted : List Parm
  warnings : List String
  skipDepth : Nat
  deriving Repr

/-- Process one visited class (the body of the loop at lines 49-101, when
the class is not skipped): run the parameter loop with `had_kwds` starting
`False`, then set `skip_depth` to `depth + 1` if the class had a var-keyword
parameter and to `0` otherwise (lines 52 and 100-101). -/
def runClass (fc : String) (depth : Nat) (cls : ClassDesc) (st : MState) : MState :=
  let r := cls.params.foldl (stepParm fc depth) ⟨st.accepted, st.warnings, false⟩
  ⟨r.accepted, r.warnings, if r.hadKwds then depth + 1 else 0⟩

/-- One step of the class loop (source lines 49-101): a class at depth `d`
is skipped entirely when `d > skip_depth` (line 50-51); otherwise it is
processed by `runClass`. -/
def stepClass (fc : String) (st : MState) (e : Nat × ClassDesc) : MState :=
  if e.1 > st.skipDepth then st else runClass fc e.1 e.2 st

/-- The visited chain `param_classes` (source lines 41-46): the enumerated
truncated `__mro__`, with the injected mixin appended at the end at
depth `0` (`param_classes.append((0, UUIDMixIn))`). -/
def paramClasses (mro : List ClassDesc) (mixin : ClassDesc) : List (Nat × ClassDesc) :=
  mro.enum ++ [(0, mixin)]

/-- The whole merge for one target field (source lines 40-101), starting
from empty `field_params`, no diagnostics, and `skip_depth = 0`. -/
def mergeChain (fc : String) (mro : List ClassDesc) (mixin : ClassDesc) : MState :=
  (paramClasses mro mixin).foldl (stepClass fc) ⟨[], [], 0⟩

/-- Merge state after the `__mro__` part only, before the appended mixin
entry is visited. -/
def mroState (fc : String) (mro : List ClassDesc) : MState :=
  mro.enum.foldl (stepClass fc) ⟨[], [], 0⟩

/-- The final parameter strings of a generated class (source lines 103-104):
the merged rendered parameters with `"self"` prepended and the var-keyword
catch-all `"**kw"` appended. -/
def fieldParamsStrings (fc : String) (mro : List ClassDesc) (mixin : ClassDesc) : List String :=
  "self" :: (mergeChain fc mro mixin).accepted.map renderParm ++ ["**kw"]

/-- The identifiers declared by the final signature: `self`, the merged
parameter names, and `kw` (the identifier bound by the emitted `**kw`). -/
def mergedNames (fc : String) (mro : List ClassDesc) (mixin : ClassDesc) : List String :=
  "self" :: (mergeChain fc mro mixin).accepted.map Parm.name ++ ["kw"]

/-- Whether a class counts as "had kwds" for target `fc` (the accumulated
`had_kwds` of source lines 55-65): some parameter of var-keyword kind that
is not dropped by the `BooleanField`/`allow_null` exclusion. -/
def hadKwdsB (fc : String) (cls : ClassDesc) : Bool :=
  cls.params.any (fun p =>
    (!(fc == "BooleanField" && p.name == "allow_null")) && p.kind == PKind.varKeyword)

/-! ### The string pipeline of the emitter (source lines 103-124)

Python string operations are modelled on `List Char`.  The source applies
`(', '.join(field_params)).replace(': ', ':_')`, wraps the result with
`textwrap.wrap(width=103)`, indents continuation lines by 37 spaces,
strips the first line's indent (`lstrip(' ')`), replaces `':_'` back to
`': '`, and interpolates the block into a dedented class template. -/

/-- Model of Python `s.replace(': ', ':_')` (source line 105): left-to-right
replacement of every non-overlapping occurrence of `": "` by `":_"`. -/
def glueColon : List Char → List Char
  | ':' :: ' ' :: rest => ':' :: '_' :: glueColon rest
  | c :: rest => c :: glueColon rest
  | [] => []

/-- Model of Python `s.replace(':_', ': ')` (source line 106): left-to-right
replacement of every non-overlapping occurrence of `":_"` by `": "`. -/
def unglueColon : List Char → List Char
  | ':' :: '_' :: rest => ':' :: ' ' :: unglueColon rest
  | c :: rest => c :: unglueColon rest
  | [] => []

/-- Word splitting as performed by `textwrap.wrap`'s chunker on text whose
only whitespace is the space character and which contains no hyphens: the
maximal runs of non-space characters, in order (whitespace chunks are
dropped by `drop_whitespace=True`). -/
def splitWordsAux : List Char → List Char → List (List Char)
  | [], acc => if acc = [] then [] else [acc.reverse]
  | ' ' :: cs, acc => if acc = [] then splitWordsAux cs [] else acc.reverse :: splitWordsAux cs []
  | c :: cs, acc => splitWordsAux cs (c :: acc)

/-- The maximal runs of non-space characters of a character list. -/
def splitWords (cs : List Char) : List (List Char) :=
  splitWordsAux cs []

/-- Greedy line filling of `textwrap.wrap` (for chunk lists without long or
hyphenated words): each line starts with one word, and the next word joins
the current line when the line's length plus one space plus the word still
fits in `width`; otherwise a new line starts.  Returns the lines as word
lists. -/
def wrapStep (width : Nat) (st : List (List (List Char)) × List (List Char) × Nat)
    (v : List Char) : List (List (List Char)) × List (List Char) × Nat :=
  if st.2.2 + 1 + v.length ≤ width then (st.1, st.2.1 ++ [v], st.2.2 + 1 + v.length)
  else (st.1 ++ [st.2.1], [v], v.length)

/-- Greedy line filling over a word list (see `wrapStep`). -/
def wrapChunks (width : Nat) : List (List Char) → List (List (List Char))
  | [] => []
  | w :: ws =>
    let r := ws.foldl (wrapStep width) ([], [w], w.length)
    r.1 ++ [r.2.1]

/-- `n` spaces. -/
def pad (n : Nat) : List Char := List.replicate n ' '

/-- Append the closing `"):"` of the `def __init__(...)` header to the last
line of the block (the template text following `{field_params}`). -/
def addClose : List (List Char) → List (List Char)
  | [] => []
  | [l] => [l ++ [')', ':']]
  | l :: ls => l :: addClose ls

/-- The emitted `def __init__(...):` lines of one generated class, as they
appear in the output file (source lines 105-106 and 115-124):

* line 105: the parameter strings are joined with `", "`, `": "` is glued to
  `":_"` so that each parameter is a single space-free word, and the text is
  wrapped with `textwrap.wrap(width=103)`;
* line 106: every wrapped line is indented by 37 spaces, the indent of the
  first line is stripped again (`lstrip(' ')`), and `":_"` is unglued back
  to `": "` (the pattern never spans a line break, so ungluing per line is
  the same);
* lines 115-124: the block is interpolated after `def __init__(` which sits
  at column 24 of the template, immediately after its opening parenthesis at
  column 36; `textwrap.dedent` then removes the common margin of 20 spaces
  (set by the `# noinspection` and `class` lines; blank lines are ignored,
  and every other line carries at least 24 spaces), leaving the `def` at
  column 4, the first parameter at column 17, and every continuation line
  indented by 37 - 20 = 17 spaces, i.e. aligned one column after the
  opening parenthesis.  The template closes the parameter list with `"):"`
  on the last line.

`assembleDef` performs the assembly given the wrapped lines. -/
def assembleDef : List (List Char) → List String
  | [] => ["    def __init__():"]
  | l0 :: rest =>
    (addClose (("    def __init__(".data ++ unglueColon l0)
      :: rest.map (fun l => pad 17 ++ unglueColon l))).map (fun cs => String.mk cs)

/-- The emitted `def __init__` block: glue, chunk, wrap, then assemble. -/
def defBlockLines (params : List String) : List String :=
  assembleDef
    ((wrapChunks 103 (splitWords (glueColon (String.intercalate ", " params).data))).map
      (List.intercalate [' ']))

/-- The text printed for one generated class (source lines 108-124) is the
dedented template: two blank lines (the lines after `f"""` consist solely
of whitespace and are normalized by `textwrap.dedent`), the
`# noinspection` line with its extra inspections (lines 108-112), the class
header with the injected mixins first and the original class last
(line 118), a blank line, the `def __init__` block, and the fixed
three-line constructor body (lines 121-123).  `classTextRest` is the part
after the constant `# noinspection PyRedeclaration` prefix. -/
def classTextRest (f : FieldDesc) (paramStrs : List String) (acceptedNames : List String) :
    String :=
  let inspects :=
    (if f.name = "SerializerMethodField" ∨ f.name = "HiddenField" ∨ f.name = "ReadOnlyField"
     then ",PyAbstractClass" else "")
    ++ (if "format" ∈ acceptedNames then ",PyShadowingBuiltins" else "")
  let fmodule := if f.fromFieldsModule then "fields." else "relations."
  inspects
  ++ "\nclass " ++ f.name ++ "(UUIDMixIn, ActionMixin, RenderToTableMixin, "
  ++ fmodule ++ f.name ++ "):\n\n"
  ++ String.intercalate "\n" (defBlockLines paramStrs)
  ++ "\n        kwargs = \x7bk: v for k, v in locals().items() if not k.startswith((\x27__\x27, \x27self\x27, \x27kw\x27))\x7d"
  ++ "\n        kwargs.update(kw)"
  ++ "\n        super().__init__(**kwargs)"

/-- The text printed for one generated class: the constant
`# noinspection PyRedeclaration` prefix (preceded by the template's two
blank lines) followed by the rest of the dedented template. -/
def classText (f : FieldDesc) (paramStrs : List String) (acceptedNames : List String) : String :=
  "\n\n# noinspection PyRedeclaration" ++ classTextRest f paramStrs acceptedNames

/-- Generation of one field: the printed class text and the diagnostics
printed while merging its chain. -/
def generateField (mixin : ClassDesc) (f : FieldDesc) : String × List String :=
  (classText f (fieldParamsStrings f.name f.mro mixin)
    ((mergeChain f.name f.mro mixin).accepted.map Parm.name),
   (mergeChain f.name f.mro mixin).warnings)

/-- The fixed output-file header (source lines 34-36; each `print` appends a
newline, and the first printed string itself ends in a newline). -/
def headerText : String :=
  "from uuid import UUID\n\n"
  ++ "from rest_framework import fields, relations\n"
  ++ "from .mixins import ActionMixin, RenderToTableMixin, UUIDMixIn\n"

/-- The result of one generation run. -/
structure GenOutput where
  classTexts : List String
  diagnostics : List String
  deriving Repr

/-- A whole run over the discovered field list (source lines 38-124): every
field in order is merged and its class text printed (with a trailing
newline from `print`); diagnostics go to standard output as they occur. -/
def generateAll (mixin : ClassDesc) (fl : List FieldDesc) : GenOutput :=
  ⟨fl.map (fun f => (generateField mixin f).1 ++ "\n"),
   (fl.map (fun f => (generateField mixin f).2)).flatten⟩

/-- The full text written to `dynamicforms/fields.py`. -/
def fileText (mixin : ClassDesc) (fl : List FieldDesc) : String :=
  headerText ++ String.join (generateAll mixin fl).classTexts

/-! ### Semantics of the generated constructor body (source lines 121-123)

The emitted body is, for every generated class:
`kwargs = {k: v for k, v in locals().items() if not k.startswith(('__', 'self', 'kw'))}` ;
`kwargs.update(kw)` ; `super().__init__(**kwargs)`.
At function entry `locals()` holds exactly the declared parameters in
declaration order (`self`, the named parameters, and the catch-all dict
`kw`); dictionaries are modelled as ordered association lists. -/

/-- Python `d.update(u)` for dicts: keys already in `d` keep their position
and receive `u`'s value; keys only in `u` are appended in `u`'s order. -/
def pyDictUpdate {α : Type} (d u : List (String × α)) : List (String × α) :=
  d.map (fun e => match u.lookup e.1 with | some v => (e.1, v) | none => e)
  ++ u.filter (fun e => (d.lookup e.1).isNone)

/-- Model of Python `s.startswith(pre)`: `pre` is a leading substring of
`s`. -/
def pyStartsWith (s pre : String) : Bool := pre.data.isPrefixOf s.data

/-- The mapping forwarded to `super().__init__` by the generated body:
the entries of `locals()` whose key does not start with `"__"`, `"self"` or
`"kw"` (Python `k.startswith` with a tuple tests each prefix), updated by
the catch-all dict `kw`. -/
def generatedBodyKwargs {α : Type} (locs kw : List (String × α)) : List (String × α) :=
  pyDictUpdate
    (locs.filter (fun e =>
      !(pyStartsWith e.1 "__" || pyStartsWith e.1 "self" || pyStartsWith e.1 "kw")))
    kw

/-- The Boolean tested when accumulating `had_kwds` for one parameter:
var-keyword kind, not removed by the `BooleanField`/`allow_null` exclusion. -/
def predK (fc : String) (p : Parm) : Bool :=
  (!(fc == "BooleanField" && p.name == "allow_null")) && p.kind == PKind.varKeyword

/-- The number of leading `__mro__` classes with a var-keyword parameter,
plus one: the index one past the first class that stops the cascade. -/
def kStop (fc : String) (mro : List ClassDesc) : Nat :=
  (mro.takeWhile (fun c => hadKwdsB fc c)).length + 1

/-- The length of a line built from a word list (words joined by single
spaces). -/
def wlen (c : List (List Char)) : Nat := (List.intercalate [' '] c).length

/-! ### Basic facts about the parameter loop -/

/-- One parameter step either leaves the accepted list unchanged or appends
exactly the parameter, and an appended parameter is fresh by name, is not
named `self`, and is not of a var kind. -/
theorem stepParm_cases (fc : String) (d : Nat) (st : PState) (p : Parm) :
    (stepParm fc d st p).accepted = st.accepted ∨
    ((stepParm fc d st p).accepted = st.accepted ++ [p] ∧
      p.name ∉ st.accepted.map Parm.name ∧ p.name ≠ "self" ∧
      p.kind ≠ PKind.varKeyword ∧ p.kind ≠ PKind.varPositional) := by
  unfold stepParm
  split_ifs with h1 h2 h3 h4
  · exact Or.inl rfl
  · exact Or.inl rfl
  · exact Or.inl rfl
  · exact Or.inl rfl
  · refine Or.inr ⟨rfl, h4, ?_, ?_, ?_⟩
    · exact fun h => h2 (Or.inl h)
    · exact fun h => h2 (Or.inr (Or.inl h))
    · exact fun h => h2 (Or.inr (Or.inr h))

/-- The `had_kwds` flag after one parameter step: the old flag or-ed with
`predK`. -/
theorem stepParm_hadKwds (fc : String) (d : Nat) (st : PState) (p : Parm) :
    (stepParm fc d st p).hadKwds = (st.hadKwds || predK fc p) := by
  unfold stepParm predK
  have hb : ¬(fc = "BooleanField" ∧ p.name = "allow_null") →
      (fc == "BooleanField" && p.name == "allow_null") = false := by
    intro h1
    by_cases hA : fc = "BooleanField" <;> by_cases hB : p.name = "allow_null" <;> simp_all
  split_ifs with h1 h2 h3 h4
  · simp [h1.1, h1.2]
  · simp [hb h1]
  · have hk : (p.kind == PKind.varKeyword) = false := by
      simp only [beq_eq_false_iff_ne, ne_eq]
      exact fun h => h2 (Or.inr (Or.inl h))
    simp [hk]
  · have hk : (p.kind == PKind.varKeyword) = false := by
      simp only [beq_eq_false_iff_ne, ne_eq]
      exact fun h => h2 (Or.inr (Or.inl h))
    simp [hk]
  · have hk : (p.kind == PKind.varKeyword) = false := by
      simp only [beq_eq_false_iff_ne, ne_eq]
      exact fun h => h2 (Or.inr (Or.inl h))
    simp [hk]

/-- `hadKwdsB` is the `any` of `predK` over the class's parameters. -/
theorem hadKwdsB_eq (fc : String) (cls : ClassDesc) :
    hadKwdsB fc cls = cls.params.any (predK fc) := rfl

/-- The parameter loop only appends: the final accepted list extends the
initial one, and every appended parameter comes from the processed list,
is fresh by name, is not named `self`, and is not of a var kind. -/
theorem foldParm_ext (fc : String) (d : Nat) (ps : List Parm) (st : PState) :
    ∃ ext, (ps.foldl (stepParm fc d) st).accepted = st.accepted ++ ext ∧
      ∀ q ∈ ext, q ∈ ps ∧ q.name ∉ st.accepted.map Parm.name ∧
        q.name ≠ "self" ∧ q.kind ≠ PKind.varKeyword ∧ q.kind ≠ PKind.varPositional := by
  induction ps generalizing st with
  | nil => exact ⟨[], by simp, by simp⟩
  | cons p ps ih =>
    rcases stepParm_cases fc d st p with h | ⟨h, hfresh, hself, hvk, hvp⟩
    · obtain ⟨ext, he, hprop⟩ := ih (stepParm fc d st p)
      refine ⟨ext, by rw [List.foldl_cons, he, h], ?_⟩
      intro q hq
      obtain ⟨hq1, hq2, hq3, hq4, hq5⟩ := hprop q hq
      exact ⟨List.mem_cons_of_mem _ hq1, by rwa [h] at hq2, hq3, hq4, hq5⟩
    · obtain ⟨ext, he, hprop⟩ := ih (stepParm fc d st p)
      refine ⟨p :: ext, ?_, ?_⟩
      · rw [List.foldl_cons, he, h]
        simp
      · intro q hq
        rcases List.mem_cons.mp hq with rfl | hq
        · exact ⟨List.mem_cons_self _ _, hfresh, hself, hvk, hvp⟩
        · obtain ⟨hq1, hq2, hq3, hq4, hq5⟩ := hprop q hq
          rw [h] at hq2
          simp only [List.map_append, List.mem_append] at hq2
          exact ⟨List.mem_cons_of_mem _ hq1, fun hc => hq2 (Or.inl hc), hq3, hq4, hq5⟩

/-- The parameter loop preserves distinctness of accepted names. -/
theorem foldParm_nodup (fc : String) (d : Nat) (ps : List Parm) (st : PState)
    (h : (st.accepted.map Parm.name).Nodup) :
    ((ps.foldl (stepParm fc d) st).accepted.map Parm.name).Nodup := by
  induction ps generalizing st with
  | nil => exact h
  | cons p ps ih =>
    rw [List.foldl_cons]
    refine ih _ ?_
    rcases stepParm_cases fc d st p with he | ⟨he, hfresh, _⟩
    · rwa [he]
    · rw [he]
      simp only [List.map_append, List.map_cons, List.map_nil]
      rw [List.nodup_append]
      exact ⟨h, List.nodup_singleton _, by simpa using hfresh⟩

/-- The `had_kwds` flag after the parameter loop: the initial flag or-ed
with `any predK` over the parameters. -/
theorem foldParm_hadKwds (fc : String) (d : Nat) (ps : List Parm) (st : PState) :
    (ps.foldl (stepParm fc d) st).hadKwds = (st.hadKwds || ps.any (predK fc)) := by
  induction ps generalizing st with
  | nil => simp
  | cons p ps ih =>
    rw [List.foldl_cons, ih, stepParm_hadKwds, List.any_cons, Bool.or_assoc]

/-- Processing one class only appends to the accepted list, with the same
freshness and shape facts per appended parameter. -/
theorem runClass_ext (fc : String) (d : Nat) (cls : ClassDesc) (st : MState) :
    ∃ ext, (runClass fc d cls st).accepted = st.accepted ++ ext ∧
      ∀ q ∈ ext, q ∈ cls.params ∧ q.name ∉ st.accepted.map Parm.name ∧
        q.name ≠ "self" ∧ q.kind ≠ PKind.varKeyword ∧ q.kind ≠ PKind.varPositional := by
  unfold runClass
  exact foldParm_ext fc d cls.params ⟨st.accepted, st.warnings, false⟩

/-- The `skip_depth` left behind by processing a class at depth `d`
(source lines 52, 100-101). -/
theorem runClass_skipDepth (fc : String) (d : Nat) (cls : ClassDesc) (st : MState) :
    (runClass fc d cls st).skipDepth = if hadKwdsB fc cls then d + 1 else 0 := by
  unfold runClass
  rw [hadKwdsB_eq]
  simp [foldParm_hadKwds]

/-- Processing one class preserves distinctness of accepted names. -/
theorem runClass_nodup (fc : String) (d : Nat) (cls : ClassDesc) (st : MState)
    (h : (st.accepted.map Parm.name).Nodup) :
    ((runClass fc d cls st).accepted.map Parm.name).Nodup := by
  unfold runClass
  exact foldParm_nodup fc d cls.params ⟨st.accepted, st.warnings, false⟩ h

/-- The class loop only appends to the accepted list; every appended
parameter is fresh against the initial accepted names, is not named `self`,
is not of a var kind, and comes from some visited chain entry. -/
theorem foldClass_ext (fc : String) (chain : List (Nat × ClassDesc)) (st : MState) :
    ∃ ext, (chain.foldl (stepClass fc) st).accepted = st.accepted ++ ext ∧
      ∀ q ∈ ext, q.name ∉ st.accepted.map Parm.name ∧ q.name ≠ "self" ∧
        q.kind ≠ PKind.varKeyword ∧ q.kind ≠ PKind.varPositional ∧
        ∃ e ∈ chain, q ∈ e.2.params := by
  induction chain generalizing st with
  | nil => exact ⟨[], by simp, by simp⟩
  | cons e chain ih =>
    rw [List.foldl_cons]
    by_cases hskip : e.1 > st.skipDepth
    · have hstep : stepClass fc st e = st := by simp [stepClass, hskip]
      rw [hstep]
      obtain ⟨ext, he, hprop⟩ := ih st
      refine ⟨ext, he, ?_⟩
      intro q hq
      obtain ⟨h1, h2, h3, h4, e', he', hq'⟩ := hprop q hq
      exact ⟨h1, h2, h3, h4, e', List.mem_cons_of_mem _ he', hq'⟩
    · have hstep : stepClass fc st e = runClass fc e.1 e.2 st := by
        simp [stepClass, hskip]
      rw [hstep]
      obtain ⟨ext1, he1, hprop1⟩ := runClass_ext fc e.1 e.2 st
      obtain ⟨ext2, he2, hprop2⟩ := ih (runClass fc e.1 e.2 st)
      refine ⟨ext1 ++ ext2, by rw [he2, he1, List.append_assoc], ?_⟩
      intro q hq
      rcases List.mem_append.mp hq with hq | hq
      · obtain ⟨h1, h2, h3, h4, h5⟩ := hprop1 q hq
        exact ⟨h2, h3, h4, h5, e, List.mem_cons_self _ _, h1⟩
      · obtain ⟨h2, h3, h4, h5, e', he', hq'⟩ := hprop2 q hq
        rw [he1] at h2
        simp only [List.map_append, List.mem_append] at h2
        exact ⟨fun hc => h2 (Or.inl hc), h3, h4, h5, e', List.mem_cons_of_mem _ he', hq'⟩

/-- The class loop preserves distinctness of accepted names. -/
theorem foldClass_nodup (fc : String) (chain : List (Nat × ClassDesc)) (st : MState)
    (h : (st.accepted.map Parm.name).Nodup) :
    ((chain.foldl (stepClass fc) st).accepted.map Parm.name).Nodup := by
  induction chain generalizing st with
  | nil => exact h
  | cons e chain ih =>
    rw [List.foldl_cons]
    refine ih _ ?_
    unfold stepClass
    split_ifs with hskip
    · exact h
    · exact runClass_nodup fc e.1 e.2 st h

/-- Once `skip_depth` is strictly below the next enumeration index, every
remaining chain entry is skipped and the state no longer changes
(source lines 50-51: entries with `depth > skip_depth` are skipped, and
skipping leaves `skip_depth` untouched while the indices keep growing). -/
theorem foldClass_skipAll (fc : String) (l : List ClassDesc) (j : Nat) (st : MState)
    (h : st.skipDepth < j) :
    (List.enumFrom j l).foldl (stepClass fc) st = st := by
  induction l generalizing j with
  | nil => rfl
  | cons c l ih =>
    rw [List.enumFrom_cons, List.foldl_cons]
    have hstep : stepClass fc st (j, c) = st := by simp [stepClass, h]
    rw [hstep]
    exact ih (j + 1) (Nat.lt_succ_of_lt h)

/-- Chain truncation: starting from a state whose `skip_depth` equals the
next enumeration index, the class loop over the rest of the `__mro__`
computes the same state as the loop over just its prefix ending at the
first class without a var-keyword parameter (all deeper entries are
skipped). -/
theorem foldClass_trunc (fc : String) (mro : List ClassDesc) (j : Nat) (st : MState)
    (h : st.skipDepth = j) :
    (List.enumFrom j mro).foldl (stepClass fc) st =
      (List.enumFrom j (mro.take ((mro.takeWhile (fun c => hadKwdsB fc c)).length + 1))).foldl
        (stepClass fc) st := by
  induction mro generalizing j st with
  | nil => rfl
  | cons c mro ih =>
    have hstep : stepClass fc st (j, c) = runClass fc j c st := by
      simp [stepClass, h]
    by_cases hk : hadKwdsB fc c
    · have htw : (c :: mro).takeWhile (fun c => hadKwdsB fc c) =
          c :: mro.takeWhile (fun c => hadKwdsB fc c) := by
        simp [List.takeWhile_cons, hk]
      rw [htw]
      simp only [List.length_cons, List.take_succ_cons, List.enumFrom_cons, List.foldl_cons,
        hstep]
      exact ih (j + 1) (runClass fc j c st) (by rw [runClass_skipDepth, if_pos hk])
    · have htw : (c :: mro).takeWhile (fun c => hadKwdsB fc c) = [] := by
        simp [List.takeWhile_cons, hk]
      rw [htw]
      simp only [List.length_nil, Nat.zero_add, List.take_succ_cons, List.take_zero,
        List.enumFrom_cons, List.foldl_cons, hstep]
      have hz : (runClass fc j c st).skipDepth = 0 := by
        rw [runClass_skipDepth, if_neg hk]
      rw [List.enumFrom_nil, List.foldl_nil]
      exact foldClass_skipAll fc mro (j + 1) _ (by rw [hz]; exact Nat.succ_pos j)

/-- The mixin entry `(0, UUIDMixIn)` appended at the end of `param_classes`
is always processed: its depth `0` can never exceed `skip_depth`. -/
theorem mergeChain_mixin (fc : String) (mro : List ClassDesc) (mixin : ClassDesc) :
    mergeChain fc mro mixin = runClass fc 0 mixin (mroState fc mro) := by
  unfold mergeChain paramClasses mroState
  rw [List.foldl_append]
  simp [stepClass]

/-- Membership in an enumerated list projects to membership in the list. -/
theorem snd_mem_of_mem_enumFrom (l : List ClassDesc) (j : Nat) (e : Nat × ClassDesc)
    (h : e ∈ List.enumFrom j l) : e.2 ∈ l := by
  induction l generalizing j with
  | nil => cases h
  | cons c l ih =>
    rw [List.enumFrom_cons] at h
    rcases List.mem_cons.mp h with rfl | h
    · exact List.mem_cons_self _ _
    · exact List.mem_cons_of_mem _ (ih (j + 1) h)

/-- Every merged parameter is not named `self`, is not of a var kind, and
was declared by some visited class (an `__mro__` entry or the mixin). -/
theorem mergeChain_props (fc : String) (mro : List ClassDesc) (mixin : ClassDesc) :
    ∀ q ∈ (mergeChain fc mro mixin).accepted,
      q.name ≠ "self" ∧ q.kind ≠ PKind.varKeyword ∧ q.kind ≠ PKind.varPositional ∧
      ∃ cls ∈ mro ++ [mixin], q ∈ cls.params := by
  intro q hq
  obtain ⟨ext, he, hprop⟩ := foldClass_ext fc (paramClasses mro mixin) ⟨[], [], 0⟩
  rw [mergeChain] at hq
  rw [he] at hq
  simp only [List.nil_append] at hq
  obtain ⟨_, h3, h4, h5, e, he', hq'⟩ := hprop q hq
  refine ⟨h3, h4, h5, e.2, ?_, hq'⟩
  rcases List.mem_append.mp he' with h | h
  · exact List.mem_append.mpr (Or.inl (snd_mem_of_mem_enumFrom mro 0 e h))
  · simp only [List.mem_singleton] at h
    subst h
    simp

/-- The merged parameter names are distinct. -/
theorem mergeChain_nodup (fc : String) (mro : List ClassDesc) (mixin : ClassDesc) :
    ((mergeChain fc mro mixin).accepted.map Parm.name).Nodup := by
  unfold mergeChain
  exact foldClass_nodup fc (paramClasses mro mixin) ⟨[], [], 0⟩ (by simp)

/-- Truncation at the first `__mro__` class without a var-keyword
parameter: the merge over the whole chain equals the merge over the prefix
`mro.take (kStop fc mro)` (everything strictly deeper than the first
non-capturing class contributes nothing). -/
theorem mergeChain_trunc (fc : String) (mro : List ClassDesc) (mixin : ClassDesc) :
    mergeChain fc mro mixin = mergeChain fc (mro.take (kStop fc mro)) mixin := by
  rw [mergeChain_mixin, mergeChain_mixin]
  have hms : mroState fc mro = mroState fc (mro.take (kStop fc mro)) := by
    unfold mroState kStop
    rw [List.enum_eq_enumFrom, List.enum_eq_enumFrom]
    exact foldClass_trunc fc mro 0 ⟨[], [], 0⟩ rfl
  rw [hms]

/-- `intercalate` over two or more words peels off the first word and one
separator. -/
theorem intercalate_cons₂ (s a b : List Char) (t : List (List Char)) :
    List.intercalate s (a :: b :: t) = a ++ s ++ List.intercalate s (b :: t) := by
  simp [List.intercalate, List.intersperse]

/-- `wlen` of a single word is its length. -/
theorem wlen_single (v : List Char) : wlen [v] = v.length := by
  simp [wlen, List.intercalate]

/-- `wlen` of two or more words peels off the first word and a separator. -/
theorem wlen_cons₂ (a b : List Char) (t : List (List Char)) :
    wlen (a :: b :: t) = a.length + 1 + wlen (b :: t) := by
  simp [wlen, intercalate_cons₂]
  omega

/-- Appending one more word to a nonempty line adds the word plus one
separator. -/
theorem wlen_append_single (c : List (List Char)) (v : List Char) (h : c ≠ []) :
    wlen (c ++ [v]) = wlen c + 1 + v.length := by
  induction c with
  | nil => exact absurd rfl h
  | cons a c ih =>
    cases c with
    | nil => simp [wlen_cons₂, wlen_single]
    | cons b t =>
      rw [show (a :: b :: t) ++ [v] = a :: b :: (t ++ [v]) from rfl]
      rw [wlen_cons₂ a b (t ++ [v]), wlen_cons₂ a b t]
      have hih := ih (by simp)
      rw [show (b :: t) ++ [v] = b :: (t ++ [v]) from rfl] at hih
      rw [hih]
      omega

/-- Invariant of the greedy fold: the finished lines plus the current line
hold exactly the words seen so far, in order; the current line is nonempty;
its tracked length is its `wlen`; and, when every word fits the width, every
finished line and the current line fit the width. -/
theorem wrapFold_inv (width : Nat) (ws : List (List Char))
    (done : List (List (List Char))) (cur : List (List Char)) (len : Nat)
    (hcur : cur ≠ []) (hlen : len = wlen cur) :
    (ws.foldl (wrapStep width) (done, cur, len)).1.flatten ++
        (ws.foldl (wrapStep width) (done, cur, len)).2.1 = done.flatten ++ cur ++ ws ∧
      (ws.foldl (wrapStep width) (done, cur, len)).2.1 ≠ [] ∧
      (ws.foldl (wrapStep width) (done, cur, len)).2.2 =
        wlen (ws.foldl (wrapStep width) (done, cur, len)).2.1 ∧
      ((∀ v ∈ ws, v.length ≤ width) → wlen cur ≤ width →
        (∀ c ∈ done, wlen c ≤ width) →
        (∀ c ∈ (ws.foldl (wrapStep width) (done, cur, len)).1, wlen c ≤ width) ∧
          wlen (ws.foldl (wrapStep width) (done, cur, len)).2.1 ≤ width) := by
  induction ws generalizing done cur len with
  | nil =>
    refine ⟨by simp, hcur, by simpa using hlen, ?_⟩
    intro _ hc hd
    exact ⟨hd, hc⟩
  | cons v ws ih =>
    rw [List.foldl_cons]
    by_cases hfit : len + 1 + v.length ≤ width
    · have hstep : wrapStep width (done, cur, len) v =
          (done, cur ++ [v], len + 1 + v.length) := by
        simp [wrapStep, hfit]
      rw [hstep]
      have hlen' : len + 1 + v.length = wlen (cur ++ [v]) := by
        rw [wlen_append_single cur v hcur, hlen]
      obtain ⟨i1, i2, i3, i4⟩ := ih done (cur ++ [v]) (len + 1 + v.length) (by simp) hlen'
      refine ⟨by rw [i1]; simp, i2, i3, ?_⟩
      intro hall hc hd
      exact i4 (fun u hu => hall u (List.mem_cons_of_mem _ hu))
        (by rw [← hlen']; exact hfit) hd
    · have hstep : wrapStep width (done, cur, len) v =
          (done ++ [cur], [v], v.length) := by
        simp [wrapStep, hfit]
      rw [hstep]
      obtain ⟨i1, i2, i3, i4⟩ := ih (done ++ [cur]) [v] v.length (by simp)
        (by rw [wlen_single])
      refine ⟨by rw [i1]; simp, i2, i3, ?_⟩
      intro hall hc hd
      refine i4 (fun u hu => hall u (List.mem_cons_of_mem _ hu))
        (by rw [wlen_single]; exact hall v (List.mem_cons_self _ _)) ?_
      intro c hcm
      rcases List.mem_append.mp hcm with hcm | hcm
      · exact hd c hcm
      · simp only [List.mem_singleton] at hcm
        subst hcm
        exact hc

/-- The wrapped lines hold exactly the input words, in order: wrapping
never drops, duplicates, or splits a word. -/
theorem wrapChunks_flatten (width : Nat) (ws : List (List Char)) :
    (wrapChunks width ws).flatten = ws := by
  cases ws with
  | nil => rfl
  | cons w ws =>
    unfold wrapChunks
    obtain ⟨i1, _, _, _⟩ := wrapFold_inv width ws [] [w] w.length (by simp)
      (by rw [wlen_single])
    simpa using i1

/-- Every wrapped line fits the width as soon as every word does. -/
theorem wrapChunks_fit (width : Nat) (ws : List (List Char))
    (hall : ∀ v ∈ ws, v.length ≤ width) :
    ∀ c ∈ wrapChunks width ws, wlen c ≤ width := by
  cases ws with
  | nil => intro c hc; cases hc
  | cons w ws =>
    unfold wrapChunks
    obtain ⟨_, _, _, i4⟩ := wrapFold_inv width ws [] [w] w.length (by simp)
      (by rw [wlen_single])
    obtain ⟨j1, j2⟩ := i4 (fun u hu => hall u (List.mem_cons_of_mem _ hu))
      (by rw [wlen_single]; exact hall w (List.mem_cons_self _ _)) (by simp)
    intro c hc
    rcases List.mem_append.mp hc with hc | hc
    · exact j1 c hc
    · simp only [List.mem_singleton] at hc
      subst hc
      exact j2

/-- `String.mk` packs a character list without changing its length. -/
theorem length_mk (cs : List Char) : (String.mk cs).length = cs.length := rfl

/-- The `':_'` → `': '` substitution preserves length. -/
theorem unglueColon_length (cs : List Char) : (unglueColon cs).length = cs.length := by
  induction cs using unglueColon.induct <;> simp [unglueColon, *]

/-- Every line produced by `addClose` is an input line, possibly with the
closing `"):"` appended. -/
theorem addClose_mem : ∀ (ls : List (List Char)) (l : List Char), l ∈ addClose ls →
    ∃ l0 ∈ ls, l = l0 ∨ l = l0 ++ [')', ':']
  | [], l, h => absurd h (by simp [addClose])
  | [x], l, h => by
    simp only [addClose, List.mem_singleton] at h
    exact ⟨x, by simp, Or.inr h⟩
  | x :: y :: t, l, h => by
    rw [show addClose (x :: y :: t) = x :: addClose (y :: t) from rfl] at h
    rcases List.mem_cons.mp h with rfl | h
    · exact ⟨l, by simp, Or.inl rfl⟩
    · obtain ⟨l0, hl0, hor⟩ := addClose_mem (y :: t) l h
      exact ⟨l0, List.mem_cons_of_mem _ hl0, hor⟩

/-- The head of `addClose` of a list with at least two elements is the
original head. -/
theorem addClose_cons₂ (x y : List Char) (t : List (List Char)) :
    addClose (x :: y :: t) = x :: addClose (y :: t) := rfl

/-- Every assembled line has at most 17 + 103 + 2 = 122 characters when
every wrapped line has at most 103 (17 for the `def __init__(` prefix of
the first line and for the continuation indent, 2 for the closing `"):"`;
the `':_'` → `': '` substitution preserves lengths). -/
theorem assembleDef_len (lines : List (List Char)) (h : ∀ l ∈ lines, l.length ≤ 103) :
    ∀ s ∈ assembleDef lines, s.length ≤ 122 := by
  intro s hs
  cases lines with
  | nil =>
    have he : s = "    def __init__():" := by simpa [assembleDef] using hs
    subst he
    decide
  | cons l0 rest =>
    unfold assembleDef at hs
    simp only [List.mem_map] at hs
    obtain ⟨lc, hlc, rfl⟩ := hs
    obtain ⟨b0, hb0, hor⟩ := addClose_mem _ lc hlc
    have hbase : b0.length ≤ 120 := by
      rcases List.mem_cons.mp hb0 with rfl | hb0
      · have hl0 : l0.length ≤ 103 := h l0 (List.mem_cons_self _ _)
        rw [List.length_append, unglueColon_length]
        simp only [List.length_cons, List.length_nil]
        omega
      · simp only [List.mem_map] at hb0
        obtain ⟨l1, hl1, rfl⟩ := hb0
        have : l1.length ≤ 103 := h l1 (List.mem_cons_of_mem _ hl1)
        rw [List.length_append, unglueColon_length]
        have h17 : (pad 17).length = 17 := by decide
        omega
    rcases hor with rfl | rfl
    · rw [length_mk]
      omega
    · rw [length_mk, List.length_append]
      have h2 : ([')', ':'] : List Char).length = 2 := by decide
      omega

/-- Every assembled line after the first starts with exactly 17 spaces. -/
theorem assembleDef_tail (lines : List (List Char)) :
    ∀ s ∈ (assembleDef lines).tail, ∃ u, s = String.mk (pad 17 ++ u) := by
  intro s hs
  cases lines with
  | nil => simp [assembleDef] at hs
  | cons l0 rest =>
    cases rest with
    | nil => simp [assembleDef, addClose] at hs
    | cons y t =>
      unfold assembleDef at hs
      simp only [List.map_cons, addClose_cons₂, List.map_cons, List.tail_cons] at hs
      simp only [List.mem_map] at hs
      obtain ⟨lc, hlc, rfl⟩ := hs
      obtain ⟨b0, hb0, hor⟩ := addClose_mem _ lc hlc
      have hpre : ∃ u, b0 = pad 17 ++ u := by
        rcases List.mem_cons.mp hb0 with rfl | hb0
        · exact ⟨unglueColon y, rfl⟩
        · simp only [List.mem_map] at hb0
          obtain ⟨lc2, _, rfl⟩ := hb0
          exact ⟨unglueColon lc2, rfl⟩
      obtain ⟨u, rfl⟩ := hpre
      rcases hor with rfl | rfl
      · exact ⟨u, rfl⟩
      · exact ⟨u ++ [')', ':'], by rw [List.append_assoc]⟩

/-- Every line of the emitted `def __init__` block has at most 122
characters when every word of the glued parameter text fits the wrap
width. -/
theorem defBlockLines_len (params : List String)
    (h : ∀ w ∈ splitWords (glueColon (String.intercalate ", " params).data), w.length ≤ 103) :
    ∀ l ∈ defBlockLines params, l.length ≤ 122 := by
  unfold defBlockLines
  refine assembleDef_len _ ?_
  intro l hl
  simp only [List.mem_map] at hl
  obtain ⟨c, hc, rfl⟩ := hl
  exact wrapChunks_fit 103 _ h c hc

/-- Every continuation line of the emitted `def __init__` block starts with
exactly 17 spaces: the column just after the opening parenthesis of
`    def __init__(`. -/
theorem defBlockLines_tail (params : List String) :
    ∀ l ∈ (defBlockLines params).tail, ∃ u, l = String.mk (pad 17 ++ u) := by
  unfold defBlockLines
  exact assembleDef_tail _

/-- Lookup in an appended association list tries the left part first. -/
theorem lookup_append {α : Type} (k : String) (l1 l2 : List (String × α)) :
    (l1 ++ l2).lookup k =
      match l1.lookup k with
      | some v => some v
      | none => l2.lookup k := by
  induction l1 with
  | nil => simp [List.lookup]
  | cons e l1 ih =>
    rw [List.cons_append]
    by_cases hk : k = e.1
    · simp [List.lookup, hk]
    · have hb : (k == e.1) = false := beq_eq_false_iff_ne.mpr hk
      simp [List.lookup, hb, ih]

/-- Lookup in the value-updated copy of `d`: present iff present in `d`,
and then carrying `u`'s value. -/
theorem lookup_map_update {α : Type} (k : String) (v : α) (d u : List (String × α))
    (hu : u.lookup k = some v) :
    (d.map (fun e => match u.lookup e.1 with | some w => (e.1, w) | none => e)).lookup k =
      match d.lookup k with
      | some _ => some v
      | none => none := by
  induction d with
  | nil => simp [List.lookup]
  | cons e d ih =>
    by_cases hk : k = e.1
    · subst hk
      simp [List.lookup, hu]
    · have hb : (k == e.1) = false := beq_eq_false_iff_ne.mpr hk
      rcases he : u.lookup e.1 with _ | w
      · simp [List.lookup, he, hb, ih]
      · simp [List.lookup, he, hb, ih]

/-- Lookup in a list filtered by a predicate on keys. -/
theorem lookup_filter_key {α : Type} (k : String) (u : List (String × α)) (p : String → Bool) :
    (u.filter (fun e => p e.1)).lookup k = if p k then u.lookup k else none := by
  induction u with
  | nil => simp [List.lookup]
  | cons e u ih =>
    by_cases hk : k = e.1
    · rcases hp : p e.1 with _ | _
      · have hpk : p k = false := by rw [hk, hp]
        simp [List.filter_cons, hp, ih, hpk]
      · subst hk
        simp [List.filter_cons, hp, List.lookup]
    · have hb : (k == e.1) = false := beq_eq_false_iff_ne.mpr hk
      rcases hp : p e.1 with _ | _
      · simp [List.filter_cons, hp, ih, List.lookup, hb]
      · simp [List.filter_cons, hp, List.lookup, hb, ih]

/-- `dict.update` semantics: a key present in `u` looks up to `u`'s value
in the updated dict — the updating entries win on conflict. -/
theorem pyDictUpdate_lookup {α : Type} (k : String) (v : α) (d u : List (String × α))
    (hu : u.lookup k = some v) :
    (pyDictUpdate d u).lookup k = some v := by
  rw [pyDictUpdate, lookup_append, lookup_map_update k v d u hu]
  rcases hd : d.lookup k with _ | w
  · rw [lookup_filter_key k u (fun s => (d.lookup s).isNone)]
    simp [hd, hu]
  · simp

/-! ## The claims -/

/-- **C9** (confirmed).  Signature shape: for every target class, whatever
the input hierarchy — even when no visited class declares a var-keyword
parameter — the final parameter list begins with the implicit `self`
parameter and ends with the single var-keyword catch-all `**kw`; no merged
parameter in between is named `self` or is of var-keyword or var-positional
kind, so the appended catch-all is the only var-keyword entry
(source lines 103-104 prepend `self` and append `**kw` unconditionally;
lines 62-66 keep `self` and all var parameters out of the merged list). -/
theorem C9_signature_shape (fc : String) (mro : List ClassDesc) (mixin : ClassDesc) :
    ∃ body, fieldParamsStrings fc mro mixin = "self" :: body ++ ["**kw"] ∧
      body = (mergeChain fc mro mixin).accepted.map renderParm ∧
      ∀ p ∈ (mergeChain fc mro mixin).accepted,
        p.name ≠ "self" ∧ p.kind ≠ PKind.varKeyword ∧ p.kind ≠ PKind.varPositional := by
  refine ⟨_, rfl, rfl, ?_⟩
  intro p hp
  obtain ⟨h1, h2, h3, _⟩ := mergeChain_props fc mro mixin p hp
  exact ⟨h1, h2, h3⟩

/-- **C10** (confirmed).  Ancestor-processing gate: an `__mro__` class at
depth d ≥ 1 contributes parameters only while every shallower class
declared a var-keyword parameter — the merge over the full chain equals the
merge over the prefix ending at the first class without one (`kStop` is one
past the length of the maximal leading run of var-keyword-capturing
classes, and every class of that run does capture); the mixin entry
appended at depth 0 is always processed, since 0 can never exceed
`skip_depth`. -/
theorem C10_ancestor_gate (fc : String) (mro : List ClassDesc) (mixin : ClassDesc) :
    mergeChain fc mro mixin = mergeChain fc (mro.take (kStop fc mro)) mixin ∧
    mergeChain fc mro mixin = runClass fc 0 mixin (mroState fc mro) ∧
    ∀ c ∈ mro.takeWhile (fun c => hadKwdsB fc c), hadKwdsB fc c = true := by
  refine ⟨mergeChain_trunc fc mro mixin, mergeChain_mixin fc mro mixin, ?_⟩
  intro c hc
  exact List.mem_takeWhile_imp hc

/-- **C2** (corrected), counterexample.  The claim says the mixin is
visited before the target class, so that mixin parameters appear first and
a mixin default wins a name conflict.  In the code the mixin entry is
appended after the whole `__mro__` (line 46), so here the target `T`
(declaring `x=2`) is visited before mixin `M` (declaring `x=1, y=3`): the
merged list keeps the target's `x=2` and places the mixin-only `y=3`
after it — not the mixin-first order `x=1, y=3` the claim requires. -/
theorem C2_counterexample :
    ((mergeChain "T"
        [⟨"T", [⟨"self", PKind.positionalOrKeyword, none, none⟩,
                ⟨"x", PKind.positionalOrKeyword, none, some (PyVal.pint 2)⟩]⟩]
        ⟨"M", [⟨"self", PKind.positionalOrKeyword, none, none⟩,
               ⟨"x", PKind.positionalOrKeyword, none, some (PyVal.pint 1)⟩,
               ⟨"y", PKind.positionalOrKeyword, none, some (PyVal.pint 3)⟩]⟩).accepted.map
      (fun p => (p.name, p.dflt)) =
      [("x", some (PyVal.pint 2)), ("y", some (PyVal.pint 3))]) ∧
    ((mergeChain "T"
        [⟨"T", [⟨"self", PKind.positionalOrKeyword, none, none⟩,
                ⟨"x", PKind.positionalOrKeyword, none, some (PyVal.pint 2)⟩]⟩]
        ⟨"M", [⟨"self", PKind.positionalOrKeyword, none, none⟩,
               ⟨"x", PKind.positionalOrKeyword, none, some (PyVal.pint 1)⟩,
               ⟨"y", PKind.positionalOrKeyword, none, some (PyVal.pint 3)⟩]⟩).accepted.map
      (fun p => (p.name, p.dflt)) ≠
      [("x", some (PyVal.pint 1)), ("y", some (PyVal.pint 3))]) := by
  decide

/-- **C2** (corrected), amended.  The merge visits the injected mixin after
the target class and its ancestors (the mixin entry is appended at the end
of `param_classes` at depth 0), so the parameters merged from the
`__mro__` form a prefix of the final list, mixin-only parameters follow
them, and a mixin parameter whose name was already merged from the
`__mro__` is dropped — the target/ancestor default wins, first-write-wins
in target-first order. -/
theorem C2_amended_mixin_last (fc : String) (mro : List ClassDesc) (mixin : ClassDesc) :
    ∃ ext, (mergeChain fc mro mixin).accepted = (mroState fc mro).accepted ++ ext ∧
      ∀ q ∈ ext, q.name ∉ (mroState fc mro).accepted.map Parm.name ∧ q ∈ mixin.params := by
  rw [mergeChain_mixin]
  obtain ⟨ext, he, hprop⟩ := runClass_ext fc 0 mixin (mroState fc mro)
  exact ⟨ext, he, fun q hq => ⟨(hprop q hq).2.1, (hprop q hq).1⟩⟩

/-- If position `d` of a list fails the predicate, the `takeWhile` prefix
has length at most `d`. -/
theorem length_takeWhile_le {α : Type} (p : α → Bool) (l : List α) (d : Nat) (c : α)
    (h1 : l.get? d = some c) (h2 : p c = false) : (l.takeWhile p).length ≤ d := by
  induction l generalizing d with
  | nil => simp at h1
  | cons a l ih =>
    cases d with
    | zero =>
      rw [List.get?_cons_zero] at h1
      cases h1
      simp [List.takeWhile_cons, h2]
    | succ d =>
      rw [List.get?_cons_succ] at h1
      rcases hp : p a with _ | _
      · simp [List.takeWhile_cons, hp]
      · simp [List.takeWhile_cons, hp]
        have := ih d h1
        omega

/-- **C1** (corrected), counterexample.  The claim says a class with a
var-keyword parameter at depth d suppresses every class at depth > d.
Here the target `Base` (depth 0) captures `**kwargs`, yet `choices`,
declared only by `Root` at depth 1, appears in the merged output: the
code's `skip_depth = depth + 1` (line 101) lets a capturing class admit
the next-deeper class rather than suppress it (this is the spec's own
scenario "`choices` must NOT appear", which the code violates). -/
theorem C1_counterexample :
    ((mergeChain "Base"
        [⟨"Base", [⟨"self", PKind.positionalOrKeyword, none, none⟩,
                   ⟨"kwargs", PKind.varKeyword, none, none⟩]⟩,
         ⟨"Root", [⟨"self", PKind.positionalOrKeyword, none, none⟩,
                   ⟨"choices", PKind.positionalOrKeyword, none, some PyVal.pnone⟩]⟩]
        ⟨"UUIDMixIn", []⟩).accepted.map Parm.name = ["choices"]) ∧
    hadKwdsB "Base" ⟨"Base", [⟨"self", PKind.positionalOrKeyword, none, none⟩,
                              ⟨"kwargs", PKind.varKeyword, none, none⟩]⟩ = true ∧
    "choices" ∉ ([⟨"self", PKind.positionalOrKeyword, none, none⟩,
                  ⟨"kwargs", PKind.varKeyword, none, none⟩] : List Parm).map Parm.name := by
  decide

/-- **C1** (corrected), amended.  Catch-all absorption is inverted in the
code: it is the absence of a var-keyword parameter that suppresses deeper
ancestors.  If the `__mro__` class at depth d does not declare a
var-keyword parameter, then every merged parameter was declared by a class
at depth ≤ d or by the mixin entry — no parameter of a class at depth
strictly greater than d appears; a class that does capture arbitrary
keywords instead lets the next-deeper ancestor be visited. -/
theorem C1_amended (fc : String) (mro : List ClassDesc) (mixin : ClassDesc) (d : Nat)
    (c : ClassDesc) (h1 : mro.get? d = some c) (h2 : hadKwdsB fc c = false) :
    ∀ p ∈ (mergeChain fc mro mixin).accepted,
      ∃ cls, (cls ∈ mro.take (d + 1) ∨ cls = mixin) ∧ p ∈ cls.params := by
  intro p hp
  rw [mergeChain_trunc] at hp
  obtain ⟨_, _, _, cls, hcls, hpmem⟩ := mergeChain_props fc (mro.take (kStop fc mro)) mixin p hp
  rcases List.mem_append.mp hcls with hcls | hcls
  · have hk : kStop fc mro ≤ d + 1 := by
      unfold kStop
      have := length_takeWhile_le (fun c => hadKwdsB fc c) mro d c h1 (by simpa using h2)
      omega
    have hsub : mro.take (kStop fc mro) ⊆ mro.take (d + 1) := by
      rw [show mro.take (kStop fc mro) = (mro.take (d + 1)).take (kStop fc mro) from by
        rw [List.take_take, Nat.min_eq_left hk]]
      exact List.take_subset _ _
    exact ⟨cls, Or.inl (hsub hcls), hpmem⟩
  · simp only [List.mem_singleton] at hcls
    exact ⟨cls, Or.inr hcls, hpmem⟩

/-- Witness for `C1_amended` at a concrete two-class chain whose target
does not capture arbitrary keywords. -/
theorem C1_amended_witness :
    (([⟨"T", [⟨"x", PKind.positionalOrKeyword, none, some (PyVal.pint 1)⟩]⟩,
       ⟨"P", [⟨"b", PKind.positionalOrKeyword, none, some (PyVal.pint 2)⟩]⟩] :
        List ClassDesc).get? 0 = some ⟨"T", [⟨"x", PKind.positionalOrKeyword, none, some (PyVal.pint 1)⟩]⟩) ∧
    hadKwdsB "T" ⟨"T", [⟨"x", PKind.positionalOrKeyword, none, some (PyVal.pint 1)⟩]⟩ = false ∧
    ∀ p ∈ (mergeChain "T"
        [⟨"T", [⟨"x", PKind.positionalOrKeyword, none, some (PyVal.pint 1)⟩]⟩,
         ⟨"P", [⟨"b", PKind.positionalOrKeyword, none, some (PyVal.pint 2)⟩]⟩]
        ⟨"M", []⟩).accepted,
      ∃ cls, (cls ∈ ([⟨"T", [⟨"x", PKind.positionalOrKeyword, none, some (PyVal.pint 1)⟩]⟩,
                      ⟨"P", [⟨"b", PKind.positionalOrKeyword, none, some (PyVal.pint 2)⟩]⟩] :
          List ClassDesc).take (0 + 1) ∨ cls = ⟨"M", []⟩) ∧ p ∈ cls.params :=
  ⟨rfl, by decide,
    C1_amended "T" _ ⟨"M", []⟩ 0 _ rfl (by decide)⟩

/-- **C6** (corrected), counterexample.  Two concrete merges against the
claim's two halves.  First: target `X` declares a keyword-only `a=1` and
the mixin a positional-or-keyword `b` with no default; both are at depth 0,
where the skip at line 67 never fires (`depth` is falsy), so the merged
list has the positional-kind `b` after the keyword-kind `a` — the claimed
ordering invariant fails.  Second: the target captures `**kwargs` and its
depth-1 ancestor declares a positional-only `b=2`; the output so far holds
only the positional-kind `a`, no keyword-kind parameter, and `b` has a
default, yet `b` is skipped — the code's condition is `depth ≠ 0` and a
nonempty output and (positional-only, any default, or
positional-or-keyword without default), not the claimed one. -/
theorem C6_counterexample :
    ((mergeChain "X"
        [⟨"X", [⟨"self", PKind.positionalOrKeyword, none, none⟩,
                ⟨"a", PKind.keywordOnly, none, some (PyVal.pint 1)⟩]⟩]
        ⟨"M", [⟨"self", PKind.positionalOrKeyword, none, none⟩,
               ⟨"b", PKind.positionalOrKeyword, none, none⟩]⟩).accepted.map
      (fun p => (p.name, p.kind, p.dflt)) =
      [("a", PKind.keywordOnly, some (PyVal.pint 1)),
       ("b", PKind.positionalOrKeyword, none)]) ∧
    ((mergeChain "X"
        [⟨"X", [⟨"self", PKind.positionalOrKeyword, none, none⟩,
                ⟨"a", PKind.positionalOrKeyword, none, some (PyVal.pint 1)⟩,
                ⟨"kwargs", PKind.varKeyword, none, none⟩]⟩,
         ⟨"P", [⟨"self", PKind.positionalOrKeyword, none, none⟩,
                ⟨"b", PKind.positionalOnly, none, some (PyVal.pint 2)⟩]⟩]
        ⟨"M", []⟩).accepted.map (fun p => (p.name, p.kind)) =
      [("a", PKind.positionalOrKeyword)]) := by
  decide

/-- **C6** (corrected), amended.  The ordering skip fires exactly when the
contributing class sits at depth ≥ 1, the output list is already nonempty
(whatever the kinds it holds), and the candidate is positional-only
(regardless of default) or positional-or-keyword without a default; the
target class and the injected mixin, both at depth 0, are never
ordering-skipped, so a depth-0 positional parameter may still follow a
keyword-kind one. -/
theorem C6_amended (fc : String) (d : Nat) (st : PState) (p : Parm)
    (h1 : ¬(fc = "BooleanField" ∧ p.name = "allow_null")) (h2 : p.name ≠ "self")
    (h3 : p.kind ≠ PKind.varKeyword) (h4 : p.kind ≠ PKind.varPositional)
    (h5 : p.name ∉ st.accepted.map Parm.name) :
    (stepParm fc d st p).accepted = st.accepted ↔
      (d ≠ 0 ∧ st.accepted ≠ [] ∧
        (p.kind = PKind.positionalOnly ∨
          (p.kind = PKind.positionalOrKeyword ∧ p.dflt = none))) := by
  unfold stepParm
  rw [if_neg h1, if_neg (by rintro (h | h | h); exacts [h2 h, h3 h, h4 h])]
  by_cases hc : d ≠ 0 ∧ st.accepted ≠ [] ∧
      (p.kind = PKind.positionalOnly ∨ (p.kind = PKind.positionalOrKeyword ∧ p.dflt = none))
  · rw [if_pos hc]
    simp [hc]
  · rw [if_neg hc, if_neg h5]
    constructor
    · intro he
      exfalso
      have hlen := congrArg List.length he
      simp only [List.length_append, List.length_cons, List.length_nil] at hlen
      omega
    · intro hcc
      exact absurd hcc hc

/-- Witness for `C6_amended`: at depth 1 with one parameter already
accepted, a positional-only parameter carrying a default is skipped. -/
theorem C6_amended_witness :
    ¬("X" = "BooleanField" ∧ ("b" : String) = "allow_null") ∧
    ((stepParm "X" 1
        ⟨[⟨"a", PKind.positionalOrKeyword, none, some (PyVal.pint 1)⟩], [], false⟩
        ⟨"b", PKind.positionalOnly, none, some (PyVal.pint 2)⟩).accepted =
      [⟨"a", PKind.positionalOrKeyword, none, some (PyVal.pint 1)⟩] ↔
      ((1 : Nat) ≠ 0 ∧
        ([⟨"a", PKind.positionalOrKeyword, none, some (PyVal.pint 1)⟩] : List Parm) ≠ [] ∧
        (PKind.positionalOnly = PKind.positionalOnly ∨
          (PKind.positionalOnly = PKind.positionalOrKeyword ∧
            (some (PyVal.pint 2) : Option PyVal) = none)))) :=
  ⟨by decide,
   C6_amended "X" 1
      ⟨[⟨"a", PKind.positionalOrKeyword, none, some (PyVal.pint 1)⟩], [], false⟩
      ⟨"b", PKind.positionalOnly, none, some (PyVal.pint 2)⟩
      (by decide) (by decide) (by decide) (by decide) (by decide)⟩

/-- **C7** (corrected), counterexample.  A visited class may declare an
ordinary parameter named `kw`; it is merged, and the appended catch-all
`**kw` then redeclares the same identifier, so the final signature holds
two parameters named `kw` (Python would reject the generated `def`). -/
theorem C7_counterexample :
    mergedNames "X"
        [⟨"X", [⟨"self", PKind.positionalOrKeyword, none, none⟩,
                ⟨"kw", PKind.positionalOrKeyword, none, some (PyVal.pint 1)⟩]⟩]
        ⟨"M", []⟩ = ["self", "kw", "kw"] ∧
    ¬(mergedNames "X"
        [⟨"X", [⟨"self", PKind.positionalOrKeyword, none, none⟩,
                ⟨"kw", PKind.positionalOrKeyword, none, some (PyVal.pint 1)⟩]⟩]
        ⟨"M", []⟩).Nodup := by
  decide

/-- **C7** (corrected), amended.  Name uniqueness holds for the whole final
signature — the prepended `self`, the merged parameters, and the appended
catch-all `kw` — provided no visited class declares a non-var-keyword
parameter named `kw`: merged names are pairwise distinct by the `seen`-set
check, a parameter named `self` is always skipped, and under the proviso
no merged parameter can be named `kw`. -/
theorem C7_amended (fc : String) (mro : List ClassDesc) (mixin : ClassDesc)
    (h : ∀ cls ∈ mro ++ [mixin], ∀ p ∈ cls.params, p.name = "kw" → p.kind = PKind.varKeyword) :
    (mergedNames fc mro mixin).Nodup := by
  show ("self" :: ((mergeChain fc mro mixin).accepted.map Parm.name ++ ["kw"])).Nodup
  have hnames := mergeChain_nodup fc mro mixin
  have hprops := mergeChain_props fc mro mixin
  have hself : "self" ∉ (mergeChain fc mro mixin).accepted.map Parm.name := by
    intro hc
    simp only [List.mem_map] at hc
    obtain ⟨p, hp, hpe⟩ := hc
    exact (hprops p hp).1 hpe
  have hkw : "kw" ∉ (mergeChain fc mro mixin).accepted.map Parm.name := by
    intro hc
    simp only [List.mem_map] at hc
    obtain ⟨p, hp, hpe⟩ := hc
    obtain ⟨_, h2, _, cls, hcls, hpm⟩ := hprops p hp
    exact h2 (h cls hcls p hpm hpe)
  refine List.nodup_cons.mpr ?_
  constructor
  · simp only [List.mem_append, List.mem_singleton]
    rintro (hc | hc)
    · exact hself hc
    · exact absurd hc (by decide)
  · rw [List.nodup_append]
    refine ⟨hnames, List.nodup_singleton _, ?_⟩
    intro a ha hb
    simp only [List.mem_singleton] at hb
    subst hb
    exact hkw ha

/-- Witness for `C7_amended` at a chain with an ordinary parameter `x`. -/
theorem C7_amended_witness :
    (∀ cls ∈ ([⟨"T", [⟨"self", PKind.positionalOrKeyword, none, none⟩,
                      ⟨"x", PKind.positionalOrKeyword, none, some (PyVal.pint 1)⟩]⟩] :
        List ClassDesc) ++ [⟨"M", []⟩],
      ∀ p ∈ cls.params, p.name = "kw" → p.kind = PKind.varKeyword) ∧
    (mergedNames "T"
        [⟨"T", [⟨"self", PKind.positionalOrKeyword, none, none⟩,
                ⟨"x", PKind.positionalOrKeyword, none, some (PyVal.pint 1)⟩]⟩]
        ⟨"M", []⟩).Nodup :=
  ⟨by decide, C7_amended "T" _ _ (by decide)⟩

/-- **C3** (corrected), counterexample.  For a parameter whose default is
an unrecognized value (`OrderedDict()`), the generator prints a diagnostic
naming the parameter, but the emitted parameter text is just the bare name
`"style"` — identical to the text of the same parameter with no default at
all.  No placeholder of any kind appears in the emitted text (lines 93-94:
the `else` branch only prints; nothing is appended to `parm_str`). -/
theorem C3_counterexample :
    parmWarnings ⟨"style", PKind.positionalOrKeyword, none, some (PyVal.other "OrderedDict()")⟩ =
      ["Error: parameter style default is of unknown type OrderedDict()."] ∧
    renderParm ⟨"style", PKind.positionalOrKeyword, none, some (PyVal.other "OrderedDict()")⟩ =
      "style" ∧
    renderParm ⟨"style", PKind.positionalOrKeyword, none, none⟩ = "style" := by
  decide

/-- **C3** (corrected), amended.  For a parameter whose annotation or
default lies outside the recognized set, the generator records a diagnostic
identifying the offending parameter, omits the unrecognized value from the
emitted parameter text entirely (no placeholder: the text equals that of
the same parameter without the value), and still continues generation,
emitting every class of the run. -/
theorem C3_amended (p : Parm) (v : PyVal) (mixin : ClassDesc) (fl : List FieldDesc) :
    (p.dflt = some v → defEncode v = none →
      ("Error: parameter " ++ p.name ++ " default is of unknown type " ++ pyStr v ++ ".")
          ∈ parmWarnings p ∧
        renderParm p = renderParm { p with dflt := none }) ∧
    (p.ann = some v → annEncode v = none →
      ("Error: parameter " ++ p.name ++ " annotation is of unknown type " ++ pyStr v ++ ".")
          ∈ parmWarnings p ∧
        renderParm p = renderParm { p with ann := none }) ∧
    (generateAll mixin fl).classTexts.length = fl.length := by
  refine ⟨?_, ?_, by simp [generateAll]⟩
  · intro hd he
    constructor
    · simp [parmWarnings, hd, he]
    · simp [renderParm, hd, he]
  · intro ha he
    constructor
    · simp [parmWarnings, ha, he]
    · simp [renderParm, ha, he]

/-- Witness for `C3_amended` at the `OrderedDict()` default. -/
theorem C3_amended_witness :
    ((⟨"style", PKind.positionalOrKeyword, none, some (PyVal.other "OrderedDict()")⟩ :
        Parm).dflt = some (PyVal.other "OrderedDict()")) ∧
    defEncode (PyVal.other "OrderedDict()") = none ∧
    (("Error: parameter " ++ "style" ++ " default is of unknown type " ++
        pyStr (PyVal.other "OrderedDict()") ++ ".")
        ∈ parmWarnings ⟨"style", PKind.positionalOrKeyword, none,
            some (PyVal.other "OrderedDict()")⟩ ∧
      renderParm ⟨"style", PKind.positionalOrKeyword, none, some (PyVal.other "OrderedDict()")⟩ =
        renderParm { (⟨"style", PKind.positionalOrKeyword, none,
            some (PyVal.other "OrderedDict()")⟩ : Parm) with dflt := none }) ∧
    (generateAll ⟨"M", []⟩
        [⟨"F", [⟨"F", [⟨"self", PKind.positionalOrKeyword, none, none⟩]⟩], true⟩]).classTexts.length = 1 :=
  ⟨rfl, rfl,
   (C3_amended ⟨"style", PKind.positionalOrKeyword, none, some (PyVal.other "OrderedDict()")⟩
      (PyVal.other "OrderedDict()") ⟨"M", []⟩
      [⟨"F", [⟨"F", [⟨"self", PKind.positionalOrKeyword, none, none⟩]⟩], true⟩]).1 rfl rfl,
   (C3_amended ⟨"style", PKind.positionalOrKeyword, none, some (PyVal.other "OrderedDict()")⟩
      (PyVal.other "OrderedDict()") ⟨"M", []⟩
      [⟨"F", [⟨"F", [⟨"self", PKind.positionalOrKeyword, none, none⟩]⟩], true⟩]).2.2⟩

/-- **C4** (corrected), counterexample.  Two input classes sharing the
generated name `IntegerField`: the run does not detect the duplicate and
does not abort — it writes a (nonempty, identical) class definition for
both.  There is no emitted-classes registry in the code, and the output
file is written incrementally while the loop runs. -/
theorem C4_counterexample :
    (generateAll ⟨"M", []⟩
        [⟨"IntegerField", [⟨"IntegerField", [⟨"self", PKind.positionalOrKeyword, none, none⟩]⟩], true⟩,
         ⟨"IntegerField", [⟨"IntegerField", [⟨"self", PKind.positionalOrKeyword, none, none⟩]⟩], true⟩]).classTexts.length = 2 ∧
    ((generateAll ⟨"M", []⟩
        [⟨"IntegerField", [⟨"IntegerField", [⟨"self", PKind.positionalOrKeyword, none, none⟩]⟩], true⟩,
         ⟨"IntegerField", [⟨"IntegerField", [⟨"self", PKind.positionalOrKeyword, none, none⟩]⟩], true⟩]).classTexts.all
      (fun t => !(t == ""))) = true := by
  decide

/-- **C4** (corrected), amended.  The generator performs no
duplicate-name detection and never aborts: it emits exactly one class text
per input class, in order, duplicates included, and every emitted class
text begins with the redeclaration-suppressing
`# noinspection PyRedeclaration` annotation (after the template's two
blank lines). -/
theorem C4_amended (mixin : ClassDesc) (fl : List FieldDesc) :
    (generateAll mixin fl).classTexts.length = fl.length ∧
    ∀ t ∈ (generateAll mixin fl).classTexts,
      ∃ rest, t = "\n\n# noinspection PyRedeclaration" ++ rest := by
  constructor
  · simp [generateAll]
  · intro t ht
    simp only [generateAll, List.mem_map] at ht
    obtain ⟨f, _, rfl⟩ := ht
    exact ⟨classTextRest f (fieldParamsStrings f.name f.mro mixin)
          ((mergeChain f.name f.mro mixin).accepted.map Parm.name) ++ "\n",
      (String.append_assoc _ _ _).symm ▸ rfl⟩

/-- **C5** (corrected), counterexample.  The generated body filters
`locals()` with `k.startswith(('__', 'self', 'kw'))`, a prefix test, not an
exact-name test: a parameter legitimately named `kwd` is silently dropped
from the forwarded mapping.  With locals `self`, `kwd=5` and an empty
catch-all, the claim requires the forwarded mapping `[("kwd", 5)]`, but
the body forwards the empty mapping. -/
theorem C5_counterexample :
    generatedBodyKwargs [("self", (0 : Nat)), ("kwd", 5), ("kw", 9)] [] = [] ∧
    generatedBodyKwargs [("self", (0 : Nat)), ("kwd", 5), ("kw", 9)] [] ≠ [("kwd", 5)] := by
  decide

/-- **C5** (corrected), amended.  The generated body collects the
`locals()` entries whose names do not start with `"__"`, `"self"` or
`"kw"` (a prefix exclusion, which drops the exact `self` and the catch-all
`kw` but also any parameter merely starting with those strings), then
merges in the catch-all dict with catch-all keys winning.  For calls in
which no parameter name other than `self` and `kw` starts with one of the
three prefixes, this equals the claim's mapping: exactly the named
parameters except `self` and the catch-all, updated by the catch-all, whose
keys always win on conflict. -/
theorem C5_amended (α : Type) (locs kw : List (String × α))
    (h : ∀ e ∈ locs, e.1 ≠ "self" → e.1 ≠ "kw" →
      (pyStartsWith e.1 "__" || pyStartsWith e.1 "self" || pyStartsWith e.1 "kw") = false) :
    generatedBodyKwargs locs kw =
      pyDictUpdate (locs.filter (fun e => !(e.1 == "self" || e.1 == "kw"))) kw ∧
    ∀ k v, kw.lookup k = some v → (generatedBodyKwargs locs kw).lookup k = some v := by
  constructor
  · unfold generatedBodyKwargs
    congr 1
    refine List.filter_congr ?_
    intro e he
    by_cases hs : e.1 = "self"
    · rw [hs]
      decide
    · by_cases hk : e.1 = "kw"
      · rw [hk]
        decide
      · rw [h e he hs hk]
        have h1 : (e.1 == "self") = false := beq_eq_false_iff_ne.mpr hs
        have h2 : (e.1 == "kw") = false := beq_eq_false_iff_ne.mpr hk
        rw [h1, h2]
        rfl
  · intro k v hv
    exact pyDictUpdate_lookup k v _ kw hv

/-- Witness for `C5_amended` on a concrete call with an ordinary `label`
parameter and one extra catch-all key. -/
theorem C5_amended_witness :
    (∀ e ∈ [("self", (0 : Nat)), ("label", 1), ("kw", 2)], (e.1 : String) ≠ "self" →
      e.1 ≠ "kw" →
      (pyStartsWith e.1 "__" || pyStartsWith e.1 "self" || pyStartsWith e.1 "kw") = false) ∧
    (generatedBodyKwargs [("self", (0 : Nat)), ("label", 1), ("kw", 2)] [("extra", 7)] =
      pyDictUpdate
        (([("self", (0 : Nat)), ("label", 1), ("kw", 2)]).filter
          (fun e => !(e.1 == "self" || e.1 == "kw"))) [("extra", 7)] ∧
     ∀ k v, ([("extra", (7 : Nat))]).lookup k = some v →
       (generatedBodyKwargs [("self", (0 : Nat)), ("label", 1), ("kw", 2)]
           [("extra", 7)]).lookup k = some v) :=
  ⟨by decide, C5_amended Nat _ _ (by decide)⟩

/-- **C8** (corrected), counterexample.  A generated class with a 96-column
parameter name: the wrap at line 105 is applied to the bare parameter text
with `width=103`, and only afterwards is the block placed at column 17 of
the emitted `def __init__(` line (37-space indent minus the 20-space
dedent margin).  The emitted first line is 120 characters long — over the
claimed fixed maximum of 103. -/
theorem C8_counterexample :
    ((defBlockLines (fieldParamsStrings "LongField"
        [⟨"LongField",
          [⟨"self", PKind.positionalOrKeyword, none, none⟩,
           ⟨String.mk (List.replicate 96 'a'), PKind.positionalOrKeyword, none, none⟩]⟩]
        ⟨"M", []⟩)).map String.length) = [120, 23] ∧ (103 : Nat) < 120 := by
  decide

/-- **C8** (corrected), amended.  The parameter text (each parameter glued
into a single space-free word by the `': '` → `':_'` substitution) is
wrapped to width 103 before the emitted indentation is applied, so emitted
signature lines may be up to 17 + 103 = 120 characters long, plus 2 more
on the final line for the closing `"):"` — at most 122, not 103; every
continuation line starts at column 17, immediately after the opening
parenthesis of `    def __init__(`; and the wrapped lines hold exactly the
glued words, in order — wrapping never drops, duplicates, or splits a
word, so a parameter whose rendered text is a single word is never split
across lines.  All of this holds whenever each glued word fits the
width. -/
theorem C8_amended (params : List String)
    (h : ∀ w ∈ splitWords (glueColon (String.intercalate ", " params).data), w.length ≤ 103) :
    (∀ l ∈ defBlockLines params, l.length ≤ 122) ∧
    (∀ l ∈ (defBlockLines params).tail, ∃ u, l = String.mk (pad 17 ++ u)) ∧
    (wrapChunks 103 (splitWords (glueColon (String.intercalate ", " params).data))).flatten =
      splitWords (glueColon (String.intercalate ", " params).data) :=
  ⟨defBlockLines_len params h, defBlockLines_tail params, wrapChunks_flatten _ _⟩

/-- Witness for `C8_amended` at the parameter list `self, a=1, **kw`. -/
theorem C8_amended_witness :
    (∀ w ∈ splitWords (glueColon (String.intercalate ", " ["self", "a=1", "**kw"]).data),
      w.length ≤ 103) ∧
    ((∀ l ∈ defBlockLines ["self", "a=1", "**kw"], l.length ≤ 122) ∧
     (∀ l ∈ (defBlockLines ["self", "a=1", "**kw"]).tail, ∃ u, l = String.mk (pad 17 ++ u)) ∧
     (wrapChunks 103
        (splitWords (glueColon (String.intercalate ", " ["self", "a=1", "**kw"]).data))).flatten =
       splitWords (glueColon (String.intercalate ", " ["self", "a=1", "**kw"]).data)) :=
  ⟨by decide, C8_amended ["self", "a=1", "**kw"] (by decide)⟩
